import Mathlib

set_option maxRecDepth 8000

namespace ChromeClock

/-!
Shallow embedding of the chrome-clock extensions' core logic:
color conversion utilities (color-picker-logic.js), the icon render
cache and draw coordinator (background_script.js / offscreen.js), the
recent-colors list (saveCustomColor), and the hour-display computation
(updateClock).  Strings are embedded as lists of characters.
-/

/-- An r/g/b channel triple, as returned by hexToRgb. -/
structure Rgb where
  r : Nat
  g : Nat
  b : Nat
deriving DecidableEq, Repr

/-- One lowercase hex digit character, as produced by the JS
number-to-string conversion in base 16 (digits 0-9 then a-f). -/
def hexDigitChar (n : Nat) : Char :=
  if n < 10 then Char.ofNat (48 + n) else Char.ofNat (87 + n)

/-- Digit loop of the JS base-16 number-to-string conversion: repeatedly
divide by 16, emitting digits least-significant first into the
accumulator.  The first argument is recursion fuel; fuel equal to the
number itself always suffices because the number at least halves each
step. -/
def natToHexAux : Nat → Nat → List Char → List Char
  | _, 0, acc => acc
  | 0, _, acc => acc
  | fuel + 1, n, acc => natToHexAux fuel (n / 16) (hexDigitChar (n % 16) :: acc)

/-- JS base-16 number-to-string conversion on naturals. -/
def natToHex (n : Nat) : List Char :=
  if n = 0 then ['0'] else natToHexAux n n []

/-- rgbToHex from color-picker-logic.js:
"#" + ((1 shl 24) + (r shl 16) + (g shl 8) + b).toString(16).slice(1).
For channels in 0..255 (the range the callers guarantee) the JS 32-bit
shifts compute exactly the arithmetic below. -/
def rgbToHex (r g b : Nat) : List Char :=
  '#' :: (natToHex (2 ^ 24 + r * 2 ^ 16 + g * 2 ^ 8 + b)).drop 1

/-- The regex character class [a-f\d] under the case-insensitive flag:
an ASCII digit or a letter a-f of either case. -/
def isHexDigitChar (c : Char) : Bool :=
  (48 ≤ c.toNat && c.toNat ≤ 57) || (97 ≤ c.toNat && c.toNat ≤ 102) ||
    (65 ≤ c.toNat && c.toNat ≤ 70)

/-- parseInt on a single hex digit character. -/
def hexVal (c : Char) : Nat :=
  if c.toNat ≤ 57 then c.toNat - 48
  else if 97 ≤ c.toNat then c.toNat - 87
  else c.toNat - 55

/-- The optional leading hash accepted by both regexes in hexToRgb. -/
def stripHash : List Char → List Char
  | '#' :: rest => rest
  | s => s

/-- The shorthand regex of hexToRgb: an optional hash followed by exactly
three hex digit characters. -/
def matchesShorthand (s : List Char) : Bool :=
  match stripHash s with
  | [a, b, c] => isHexDigitChar a && isHexDigitChar b && isHexDigitChar c
  | _ => false

/-- The full-form regex of hexToRgb: an optional hash followed by exactly
six hex digit characters. -/
def matchesFullHex (s : List Char) : Bool :=
  match stripHash s with
  | [a, b, c, d, e, f] =>
    isHexDigitChar a && isHexDigitChar b && isHexDigitChar c &&
      isHexDigitChar d && isHexDigitChar e && isHexDigitChar f
  | _ => false

/-- The replace call in hexToRgb: a shorthand match (the hash included)
is replaced by the six doubled digits; any other string is unchanged. -/
def expandShorthand (s : List Char) : List Char :=
  match stripHash s with
  | [a, b, c] =>
    if isHexDigitChar a && isHexDigitChar b && isHexDigitChar c then
      [a, a, b, b, c, c]
    else s
  | _ => s

/-- hexToRgb from color-picker-logic.js: expand shorthand, then parse the
six-digit form with the optional hash, and fall back to black on any
string that matches neither pattern. -/
def hexToRgb (s : List Char) : Rgb :=
  match stripHash (expandShorthand s) with
  | [h1, h2, h3, h4, h5, h6] =>
    if isHexDigitChar h1 && isHexDigitChar h2 && isHexDigitChar h3 &&
        isHexDigitChar h4 && isHexDigitChar h5 && isHexDigitChar h6 then
      ⟨16 * hexVal h1 + hexVal h2, 16 * hexVal h3 + hexVal h4,
        16 * hexVal h5 + hexVal h6⟩
    else ⟨0, 0, 0⟩
  | _ => ⟨0, 0, 0⟩

/-- ASCII lowercasing of one character, used to state case-normalized
string equality. -/
def toLowerChar (c : Char) : Char :=
  if 65 ≤ c.toNat && c.toNat ≤ 90 then Char.ofNat (c.toNat + 32) else c

theorem natToHexAux_append (fuel : Nat) :
    ∀ n acc, natToHexAux fuel n acc = natToHexAux fuel n [] ++ acc := by
  induction fuel with
  | zero =>
    intro n acc
    cases n <;> simp [natToHexAux]
  | succ f ih =>
    intro n acc
    cases n with
    | zero => simp [natToHexAux]
    | succ m =>
      rw [natToHexAux, natToHexAux, ih _ (hexDigitChar ((m + 1) % 16) :: acc),
        ih _ [hexDigitChar ((m + 1) % 16)]]
      · simp
      all_goals omega

theorem natToHexAux_fuel (f₁ : Nat) :
    ∀ f₂ n acc, n ≤ f₁ → n ≤ f₂ →
      natToHexAux f₁ n acc = natToHexAux f₂ n acc := by
  induction f₁ with
  | zero =>
    intro f₂ n acc h1 _
    interval_cases n
    cases f₂ <;> simp [natToHexAux]
  | succ f ih =>
    intro f₂ n acc h1 h2
    cases n with
    | zero => cases f₂ <;> simp [natToHexAux]
    | succ m =>
      cases f₂ with
      | zero => omega
      | succ f' =>
        rw [natToHexAux, natToHexAux]
        · exact ih f' ((m + 1) / 16) _ (by omega) (by omega)
        all_goals omega

theorem natToHex_step (m d : Nat) (hm : m ≠ 0) (hd : d < 16) :
    natToHex (16 * m + d) = natToHex m ++ [hexDigitChar d] := by
  have hN : 16 * m + d ≠ 0 := by omega
  obtain ⟨k, hk⟩ : ∃ k, 16 * m + d = k + 1 := ⟨16 * m + d - 1, by omega⟩
  obtain ⟨j, hj⟩ : ∃ j, k = j + 1 := ⟨k - 1, by omega⟩
  unfold natToHex
  rw [if_neg hN, if_neg hm, hk]
  rw [natToHexAux]
  · have hdiv : (k + 1) / 16 = m := by omega
    have hmod : (k + 1) % 16 = d := by omega
    rw [hdiv, hmod, natToHexAux_append]
    rw [natToHexAux_fuel k m m [] (by omega) (le_refl m)]
  all_goals omega

theorem natToHex_one : natToHex 1 = ['1'] := by decide

theorem rgbToHex_digits (r g b : Nat) (hr : r < 256) (hg : g < 256)
    (hb : b < 256) :
    rgbToHex r g b =
      ['#', hexDigitChar (r / 16), hexDigitChar (r % 16),
        hexDigitChar (g / 16), hexDigitChar (g % 16),
        hexDigitChar (b / 16), hexDigitChar (b % 16)] := by
  unfold rgbToHex
  have e1 : 2 ^ 24 + r * 2 ^ 16 + g * 2 ^ 8 + b
      = 16 * (2 ^ 20 + r * 2 ^ 12 + g * 2 ^ 4 + b / 16) + b % 16 := by omega
  have e2 : 2 ^ 20 + r * 2 ^ 12 + g * 2 ^ 4 + b / 16
      = 16 * (2 ^ 16 + r * 2 ^ 8 + g) + b / 16 := by omega
  have e3 : 2 ^ 16 + r * 2 ^ 8 + g
      = 16 * (2 ^ 12 + r * 2 ^ 4 + g / 16) + g % 16 := by omega
  have e4 : 2 ^ 12 + r * 2 ^ 4 + g / 16
      = 16 * (2 ^ 8 + r) + g / 16 := by omega
  have e5 : 2 ^ 8 + r = 16 * (2 ^ 4 + r / 16) + r % 16 := by omega
  have e6 : 2 ^ 4 + r / 16 = 16 * 1 + r / 16 := by omega
  rw [e1, natToHex_step _ _ (by omega) (by omega),
    e2, natToHex_step _ _ (by omega) (by omega),
    e3, natToHex_step _ _ (by omega) (by omega),
    e4, natToHex_step _ _ (by omega) (by omega),
    e5, natToHex_step _ _ (by omega) (by omega),
    e6, natToHex_step _ _ (by omega) (by omega), natToHex_one]
  simp

theorem hexVal_hexDigitChar (d : Nat) (hd : d < 16) :
    hexVal (hexDigitChar d) = d := by
  interval_cases d <;> decide

theorem isHexDigitChar_hexDigitChar (d : Nat) (hd : d < 16) :
    isHexDigitChar (hexDigitChar d) = true := by
  interval_cases d <;> decide

theorem hexDigitChar_hexVal (c : Char) (hc : isHexDigitChar c = true) :
    hexDigitChar (hexVal c) = toLowerChar c := by
  have hv := Char.ofNat_toNat c
  simp only [isHexDigitChar, Bool.or_eq_true, Bool.and_eq_true,
    decide_eq_true_eq] at hc
  rcases hc with (⟨h1, h2⟩ | ⟨h1, h2⟩) | ⟨h1, h2⟩
  · have hval : hexVal c = c.toNat - 48 := by
      unfold hexVal; rw [if_pos (by omega)]
    have hlo : toLowerChar c = c := by
      unfold toLowerChar
      rw [if_neg (by simp only [Bool.and_eq_true, decide_eq_true_eq]; omega)]
    rw [hval, hlo]
    unfold hexDigitChar
    rw [if_pos (by omega)]
    have he : 48 + (c.toNat - 48) = c.toNat := by omega
    rw [he, hv]
  · have hval : hexVal c = c.toNat - 87 := by
      unfold hexVal; rw [if_neg (by omega), if_pos (by omega)]
    have hlo : toLowerChar c = c := by
      unfold toLowerChar
      rw [if_neg (by simp only [Bool.and_eq_true, decide_eq_true_eq]; omega)]
    rw [hval, hlo]
    unfold hexDigitChar
    rw [if_neg (by omega)]
    have he : 87 + (c.toNat - 87) = c.toNat := by omega
    rw [he, hv]
  · have hval : hexVal c = c.toNat - 55 := by
      unfold hexVal; rw [if_neg (by omega), if_neg (by omega)]
    have hlo : toLowerChar c = Char.ofNat (c.toNat + 32) := by
      unfold toLowerChar
      rw [if_pos (by simp only [Bool.and_eq_true, decide_eq_true_eq]; omega)]
    rw [hval, hlo]
    unfold hexDigitChar
    rw [if_neg (by omega)]
    have he : 87 + (c.toNat - 55) = c.toNat + 32 := by omega
    rw [he]

theorem hexVal_lt_16 (c : Char) (hc : isHexDigitChar c = true) :
    hexVal c < 16 := by
  simp only [isHexDigitChar, Bool.or_eq_true, Bool.and_eq_true,
    decide_eq_true_eq] at hc
  unfold hexVal
  rcases hc with (⟨h1, h2⟩ | ⟨h1, h2⟩) | ⟨h1, h2⟩
  · rw [if_pos (by omega)]; omega
  · rw [if_neg (by omega), if_pos (by omega)]; omega
  · rw [if_neg (by omega), if_neg (by omega)]; omega

/-- C6: for every valid 6-hex-digit color string (leading hash, each of
the six characters a hex digit of either case), rgbToHex applied to the
channels returned by hexToRgb yields the input string lowercased, i.e.
the round trip is the identity up to letter case. -/
theorem rgbToHex_hexToRgb_roundtrip (c1 c2 c3 c4 c5 c6 : Char)
    (h1 : isHexDigitChar c1 = true) (h2 : isHexDigitChar c2 = true)
    (h3 : isHexDigitChar c3 = true) (h4 : isHexDigitChar c4 = true)
    (h5 : isHexDigitChar c5 = true) (h6 : isHexDigitChar c6 = true) :
    rgbToHex (hexToRgb ['#', c1, c2, c3, c4, c5, c6]).r
        (hexToRgb ['#', c1, c2, c3, c4, c5, c6]).g
        (hexToRgb ['#', c1, c2, c3, c4, c5, c6]).b
      = ['#', toLowerChar c1, toLowerChar c2, toLowerChar c3,
          toLowerChar c4, toLowerChar c5, toLowerChar c6] := by
  have v1 := hexVal_lt_16 c1 h1
  have v2 := hexVal_lt_16 c2 h2
  have v3 := hexVal_lt_16 c3 h3
  have v4 := hexVal_lt_16 c4 h4
  have v5 := hexVal_lt_16 c5 h5
  have v6 := hexVal_lt_16 c6 h6
  have hrgb : hexToRgb ['#', c1, c2, c3, c4, c5, c6]
      = ⟨16 * hexVal c1 + hexVal c2, 16 * hexVal c3 + hexVal c4,
          16 * hexVal c5 + hexVal c6⟩ := by
    simp [hexToRgb, expandShorthand, stripHash, h1, h2, h3, h4, h5, h6]
  rw [hrgb]
  show rgbToHex (16 * hexVal c1 + hexVal c2) (16 * hexVal c3 + hexVal c4)
    (16 * hexVal c5 + hexVal c6) = _
  rw [rgbToHex_digits _ _ _ (by omega) (by omega) (by omega)]
  have d1 : (16 * hexVal c1 + hexVal c2) / 16 = hexVal c1 := by omega
  have d2 : (16 * hexVal c1 + hexVal c2) % 16 = hexVal c2 := by omega
  have d3 : (16 * hexVal c3 + hexVal c4) / 16 = hexVal c3 := by omega
  have d4 : (16 * hexVal c3 + hexVal c4) % 16 = hexVal c4 := by omega
  have d5 : (16 * hexVal c5 + hexVal c6) / 16 = hexVal c5 := by omega
  have d6 : (16 * hexVal c5 + hexVal c6) % 16 = hexVal c6 := by omega
  rw [d1, d2, d3, d4, d5, d6, hexDigitChar_hexVal c1 h1,
    hexDigitChar_hexVal c2 h2, hexDigitChar_hexVal c3 h3,
    hexDigitChar_hexVal c4 h4, hexDigitChar_hexVal c5 h5,
    hexDigitChar_hexVal c6 h6]

/-- Witness for C6 at the concrete input "#A3F2C1". -/
theorem rgbToHex_hexToRgb_roundtrip_witness :
    rgbToHex (hexToRgb ['#', 'A', '3', 'F', '2', 'C', '1']).r
        (hexToRgb ['#', 'A', '3', 'F', '2', 'C', '1']).g
        (hexToRgb ['#', 'A', '3', 'F', '2', 'C', '1']).b
      = ['#', 'a', '3', 'f', '2', 'c', '1'] := by
  have h := rgbToHex_hexToRgb_roundtrip 'A' '3' 'F' '2' 'C' '1'
    (by decide) (by decide) (by decide) (by decide) (by decide) (by decide)
  rw [h]
  decide

/-- C7: any string matching neither the shorthand pattern nor, after
shorthand expansion, the six-digit pattern is mapped by hexToRgb to
exactly black, r = g = b = 0; hexToRgb is a total function, so no error
is raised. -/
theorem hexToRgb_invalid_black (s : List Char)
    (hs : matchesShorthand s = false)
    (hf : matchesFullHex (expandShorthand s) = false) :
    hexToRgb s = ⟨0, 0, 0⟩ := by
  unfold matchesFullHex at hf
  unfold hexToRgb
  rcases hl : stripHash (expandShorthand s) with
    _ | ⟨a, _ | ⟨b, _ | ⟨c, _ | ⟨d, _ | ⟨e, _ | ⟨f, _ | ⟨g, t⟩⟩⟩⟩⟩⟩⟩ <;>
    simp_all

/-- Witness for C7 at the concrete input "xyz". -/
theorem hexToRgb_invalid_black_witness :
    hexToRgb ['x', 'y', 'z'] = ⟨0, 0, 0⟩ :=
  hexToRgb_invalid_black ['x', 'y', 'z'] (by decide) (by decide)

/-- C9: for all channel values r, g, b in 0..255, hexToRgb applied to
the string produced by rgbToHex returns exactly the triple r, g, b. -/
theorem hexToRgb_rgbToHex_roundtrip (r g b : Nat)
    (hr : r ≤ 255) (hg : g ≤ 255) (hb : b ≤ 255) :
    hexToRgb (rgbToHex r g b) = ⟨r, g, b⟩ := by
  have e1 : r / 16 < 16 := by omega
  have e2 : r % 16 < 16 := by omega
  have e3 : g / 16 < 16 := by omega
  have e4 : g % 16 < 16 := by omega
  have e5 : b / 16 < 16 := by omega
  have e6 : b % 16 < 16 := by omega
  rw [rgbToHex_digits r g b (by omega) (by omega) (by omega)]
  simp [hexToRgb, expandShorthand, stripHash,
    isHexDigitChar_hexDigitChar _ e1, isHexDigitChar_hexDigitChar _ e2,
    isHexDigitChar_hexDigitChar _ e3, isHexDigitChar_hexDigitChar _ e4,
    isHexDigitChar_hexDigitChar _ e5, isHexDigitChar_hexDigitChar _ e6,
    hexVal_hexDigitChar _ e1, hexVal_hexDigitChar _ e2,
    hexVal_hexDigitChar _ e3, hexVal_hexDigitChar _ e4,
    hexVal_hexDigitChar _ e5, hexVal_hexDigitChar _ e6]
  omega

/-- Witness for C9 at the concrete channels 18, 52, 250. -/
theorem hexToRgb_rgbToHex_roundtrip_witness :
    hexToRgb (rgbToHex 18 52 250) = ⟨18, 52, 250⟩ :=
  hexToRgb_rgbToHex_roundtrip 18 52 250 (by decide) (by decide) (by decide)

/-!  Hour display computation, from updateClock in background_script.js. -/

/-- The hour value computed for display by updateClock: the JS expression
hours mod 12 or-else 12 when the 24-hour format is off (the or-else
yields 12 exactly when hours mod 12 is 0), the raw hour otherwise. -/
def displayHours (h : Nat) (use24HourFormat : Bool) : Nat :=
  if use24HourFormat then h else (if h % 12 = 0 then 12 else h % 12)

/-- Decimal digit loop of the JS number-to-string conversion, fuel-based
like natToHexAux. -/
def natToDecAux : Nat → Nat → List Char → List Char
  | _, 0, acc => acc
  | 0, _, acc => acc
  | fuel + 1, n, acc => natToDecAux fuel (n / 10) (Char.ofNat (48 + n % 10) :: acc)

/-- JS base-10 number-to-string conversion on naturals. -/
def natToDec (n : Nat) : List Char :=
  if n = 0 then ['0'] else natToDecAux n n []

/-- textToDraw computed by updateClock: the display hour as a string,
with a zero character prepended when showLeadingZero is on and the
display hour is a single digit. -/
def textToDraw (h : Nat) (use24HourFormat showLeadingZero : Bool) : List Char :=
  let hours := displayHours h use24HourFormat
  if showLeadingZero ∧ hours < 10 then '0' :: natToDec hours else natToDec hours

/-- C10: for every hour of day below 24, with the 24-hour format off the
display hour equals ((h + 11) mod 12) + 1, lies in 1..12 and is never 0
(so both 0 and 12 display as 12), and with the leading-zero option on a
single-digit display hour renders as exactly two characters starting
with the zero character. -/
theorem updateClock_display_hours :
    ∀ h, h < 24 →
      displayHours h false = (h + 11) % 12 + 1 ∧
      1 ≤ displayHours h false ∧ displayHours h false ≤ 12 ∧
      displayHours h false ≠ 0 ∧
      (displayHours h false < 10 →
        (textToDraw h false true).length = 2 ∧
        (textToDraw h false true).head? = some '0') := by
  decide

/-- Witness for C10 at midnight, hour 0. -/
theorem updateClock_display_hours_witness :
    displayHours 0 false = (0 + 11) % 12 + 1 ∧
    1 ≤ displayHours 0 false ∧ displayHours 0 false ≤ 12 ∧
    displayHours 0 false ≠ 0 ∧
    (displayHours 0 false < 10 →
      (textToDraw 0 false true).length = 2 ∧
      (textToDraw 0 false true).head? = some '0') :=
  updateClock_display_hours 0 (by decide)

/-!  Recent-colors list, from saveCustomColor (options/popup logic). -/

/-- The recent-colors update performed by saveCustomColor: prepend the
selected color when it is nonempty and not already present, then
truncate the list to its first five entries when it is longer than 5. -/
def saveCustomColorRecent (selectedColor : List Char)
    (stored : List (List Char)) : List (List Char) :=
  let recentColors :=
    if selectedColor ≠ [] ∧ selectedColor ∉ stored then
      selectedColor :: stored
    else stored
  if recentColors.length > 5 then recentColors.take 5 else recentColors

/-- Counterexample to C5: saving a color that is already in the list
leaves the list unchanged; the color is not moved to the front. -/
theorem saveCustomColor_no_move_to_front :
    saveCustomColorRecent ['#', 'b', 'b', 'b', 'b', 'b', 'b']
        [['#', 'a', 'a', 'a', 'a', 'a', 'a'], ['#', 'b', 'b', 'b', 'b', 'b', 'b']]
      = [['#', 'a', 'a', 'a', 'a', 'a', 'a'], ['#', 'b', 'b', 'b', 'b', 'b', 'b']] ∧
    (saveCustomColorRecent ['#', 'b', 'b', 'b', 'b', 'b', 'b']
        [['#', 'a', 'a', 'a', 'a', 'a', 'a'], ['#', 'b', 'b', 'b', 'b', 'b', 'b']]).head?
      ≠ some ['#', 'b', 'b', 'b', 'b', 'b', 'b'] := by
  decide

theorem saveCustomColorRecent_eq (color : List Char)
    (stored : List (List Char)) :
    saveCustomColorRecent color stored =
      if color ≠ [] ∧ color ∉ stored then (color :: stored).take 5
      else stored.take 5 := by
  simp only [saveCustomColorRecent]
  by_cases hc : color ≠ [] ∧ color ∉ stored
  · rw [if_pos hc, if_pos hc]
    by_cases hlen : (color :: stored).length > 5
    · rw [if_pos hlen]
    · rw [if_neg hlen, List.take_of_length_le (by omega)]
  · rw [if_neg hc, if_neg hc]
    by_cases hlen : stored.length > 5
    · rw [if_pos hlen]
    · rw [if_neg hlen, List.take_of_length_le (by omega)]

/-- C5 as amended: a color already present leaves the list unchanged
apart from truncation to five entries (in particular it is not
duplicated and not moved to the front); a nonempty color not yet present
is prepended and becomes the head; the result never exceeds five
entries; entries are dropped from the tail, i.e. least-recently-added
first; and the update preserves freedom from duplicates. -/
theorem saveCustomColorRecent_spec (color : List Char)
    (stored : List (List Char)) :
    (color ∈ stored → saveCustomColorRecent color stored = stored.take 5) ∧
    (color ≠ [] → color ∉ stored →
      saveCustomColorRecent color stored = (color :: stored).take 5 ∧
      (saveCustomColorRecent color stored).head? = some color) ∧
    (saveCustomColorRecent color stored).length ≤ 5 ∧
    (stored.Nodup → (saveCustomColorRecent color stored).Nodup) := by
  rw [saveCustomColorRecent_eq]
  refine ⟨?_, ?_, ?_, ?_⟩
  · intro hmem
    rw [if_neg (by tauto)]
  · intro hne hmem
    rw [if_pos ⟨hne, hmem⟩]
    exact ⟨rfl, rfl⟩
  · split <;> (rw [List.length_take]; omega)
  · intro hnd
    split
    · rename_i hc
      exact (List.nodup_cons.mpr ⟨hc.2, hnd⟩).sublist (List.take_sublist 5 _)
    · exact hnd.sublist (List.take_sublist 5 _)

/-- Witness for C5 as amended, at a fresh color and a two-element list. -/
theorem saveCustomColorRecent_spec_witness :
    ((['#', 'c', 'c', 'c', 'c', 'c', 'c'] : List Char)
        ∈ ([['#', 'a', 'a', 'a', 'a', 'a', 'a']] : List (List Char)) →
      saveCustomColorRecent ['#', 'c', 'c', 'c', 'c', 'c', 'c']
          [['#', 'a', 'a', 'a', 'a', 'a', 'a']]
        = [['#', 'a', 'a', 'a', 'a', 'a', 'a']].take 5) ∧
    ((['#', 'c', 'c', 'c', 'c', 'c', 'c'] : List Char) ≠ [] →
      (['#', 'c', 'c', 'c', 'c', 'c', 'c'] : List Char)
          ∉ ([['#', 'a', 'a', 'a', 'a', 'a', 'a']] : List (List Char)) →
      saveCustomColorRecent ['#', 'c', 'c', 'c', 'c', 'c', 'c']
          [['#', 'a', 'a', 'a', 'a', 'a', 'a']]
        = (['#', 'c', 'c', 'c', 'c', 'c', 'c']
            :: [['#', 'a', 'a', 'a', 'a', 'a', 'a']]).take 5 ∧
      (saveCustomColorRecent ['#', 'c', 'c', 'c', 'c', 'c', 'c']
          [['#', 'a', 'a', 'a', 'a', 'a', 'a']]).head?
        = some ['#', 'c', 'c', 'c', 'c', 'c', 'c']) ∧
    (saveCustomColorRecent ['#', 'c', 'c', 'c', 'c', 'c', 'c']
        [['#', 'a', 'a', 'a', 'a', 'a', 'a']]).length ≤ 5 ∧
    (([['#', 'a', 'a', 'a', 'a', 'a', 'a']] : List (List Char)).Nodup →
      (saveCustomColorRecent ['#', 'c', 'c', 'c', 'c', 'c', 'c']
          [['#', 'a', 'a', 'a', 'a', 'a', 'a']]).Nodup) :=
  saveCustomColorRecent_spec ['#', 'c', 'c', 'c', 'c', 'c', 'c']
    [['#', 'a', 'a', 'a', 'a', 'a', 'a']]

/-!  Cache key generation, from OptimizedIconCache.generateCacheKey. -/

/-- The string the JS runtime produces for a boolean interpolated into a
join or template literal. -/
def boolStr (b : Bool) : List Char :=
  if b then ['t', 'r', 'u', 'e'] else ['f', 'a', 'l', 's', 'e']

/-- generateCacheKey from background_script.js: the four fields joined
with a pipe character. -/
def generateCacheKey (text color : List Char)
    (use24HourFormat showLeadingZero : Bool) : List Char :=
  text ++ '|' :: (color ++ '|'
    :: (boolStr use24HourFormat ++ '|' :: boolStr showLeadingZero))

/-- generateCacheKey from the offscreen.js variant: a template literal
joining the same four fields with dashes. -/
def generateCacheKeyOffscreen (text color : List Char)
    (use24HourFormat showLeadingZero : Bool) : List Char :=
  text ++ '-' :: (color ++ '-'
    :: (boolStr use24HourFormat ++ '-' :: boolStr showLeadingZero))

/-- The cache key built inline by updateClock in the offscreen.js
variant: a template literal joining textToDraw, the color and the
24-hour flag with dashes — showLeadingZero is not part of the key. -/
def updateClockCacheKey (text color : List Char)
    (use24HourFormat : Bool) : List Char :=
  text ++ '-' :: (color ++ '-' :: boolStr use24HourFormat)

/-- Counterexample to C8, on two of the cited key constructions.  The
background_script.js pipe join collides on distinct (text, color) pairs
that contain the separator; and the inline updateClock key of the
offscreen.js variant omits showLeadingZero, so at hour 12 the two
distinct tuples differing only in that flag — both with separator-free
text and color — produce the identical key. -/
theorem generateCacheKey_not_injective :
    (generateCacheKey ['a', '|', 'b'] ['c'] false false
       = generateCacheKey ['a'] ['b', '|', 'c'] false false ∧
     ((['a', '|', 'b'] : List Char), (['c'] : List Char))
       ≠ ((['a'] : List Char), (['b', '|', 'c'] : List Char))) ∧
    (updateClockCacheKey (textToDraw 12 false true)
        ['b', 'l', 'a', 'c', 'k'] false
       = updateClockCacheKey (textToDraw 12 false false)
        ['b', 'l', 'a', 'c', 'k'] false ∧
     (textToDraw 12 false true, (['b', 'l', 'a', 'c', 'k'] : List Char),
        false, true)
       ≠ (textToDraw 12 false false, ['b', 'l', 'a', 'c', 'k'],
        false, false) ∧
     '-' ∉ textToDraw 12 false true ∧
     '-' ∉ (['b', 'l', 'a', 'c', 'k'] : List Char)) := by
  decide

theorem append_sep_inj (sep : Char) (xs : List Char) :
    ∀ ys r1 r2 : List Char, sep ∉ xs → sep ∉ ys →
      xs ++ sep :: r1 = ys ++ sep :: r2 → xs = ys ∧ r1 = r2 := by
  induction xs with
  | nil =>
    intro ys r1 r2 _ hy h
    cases ys with
    | nil => simpa using h
    | cons b bs =>
      simp only [List.nil_append, List.cons_append, List.cons.injEq] at h
      exact absurd (h.1 ▸ List.mem_cons_self b bs) (h.1 ▸ hy)
  | cons a as ih =>
    intro ys r1 r2 hx hy h
    cases ys with
    | nil =>
      simp only [List.cons_append, List.nil_append, List.cons.injEq] at h
      exact absurd (h.1 ▸ List.mem_cons_self a as) (fun hmem => hx (h.1 ▸ hmem))
    | cons b bs =>
      simp only [List.cons_append, List.cons.injEq] at h
      obtain ⟨hab, htail⟩ := h
      have hx' : sep ∉ as := fun hmem => hx (List.mem_cons_of_mem a hmem)
      have hy' : sep ∉ bs := fun hmem => hy (List.mem_cons_of_mem b hmem)
      obtain ⟨h1, h2⟩ := ih bs r1 r2 hx' hy' htail
      exact ⟨by rw [hab, h1], h2⟩

theorem pipe_not_mem_boolStr (b : Bool) : '|' ∉ boolStr b := by
  cases b <;> decide

theorem dash_not_mem_boolStr (b : Bool) : '-' ∉ boolStr b := by
  cases b <;> decide

theorem generateCacheKey_inj_pipeFree
    (t1 c1 t2 c2 : List Char) (u1 z1 u2 z2 : Bool)
    (ht1 : '|' ∉ t1) (hc1 : '|' ∉ c1) (ht2 : '|' ∉ t2) (hc2 : '|' ∉ c2)
    (heq : generateCacheKey t1 c1 u1 z1 = generateCacheKey t2 c2 u2 z2) :
    t1 = t2 ∧ c1 = c2 ∧ u1 = u2 ∧ z1 = z2 := by
  unfold generateCacheKey at heq
  obtain ⟨het, heq⟩ := append_sep_inj '|' t1 t2 _ _ ht1 ht2 heq
  obtain ⟨hec, heq⟩ := append_sep_inj '|' c1 c2 _ _ hc1 hc2 heq
  obtain ⟨heu, hez⟩ := append_sep_inj '|' (boolStr u1) (boolStr u2) _ _
    (pipe_not_mem_boolStr u1) (pipe_not_mem_boolStr u2) heq
  refine ⟨het, hec, ?_, ?_⟩
  · cases u1 <;> cases u2 <;> simp_all [boolStr]
  · cases z1 <;> cases z2 <;> simp_all [boolStr]

theorem generateCacheKeyOffscreen_inj_dashFree
    (t1 c1 t2 c2 : List Char) (u1 z1 u2 z2 : Bool)
    (ht1 : '-' ∉ t1) (hc1 : '-' ∉ c1) (ht2 : '-' ∉ t2) (hc2 : '-' ∉ c2)
    (heq : generateCacheKeyOffscreen t1 c1 u1 z1
      = generateCacheKeyOffscreen t2 c2 u2 z2) :
    t1 = t2 ∧ c1 = c2 ∧ u1 = u2 ∧ z1 = z2 := by
  unfold generateCacheKeyOffscreen at heq
  obtain ⟨het, heq⟩ := append_sep_inj '-' t1 t2 _ _ ht1 ht2 heq
  obtain ⟨hec, heq⟩ := append_sep_inj '-' c1 c2 _ _ hc1 hc2 heq
  obtain ⟨heu, hez⟩ := append_sep_inj '-' (boolStr u1) (boolStr u2) _ _
    (dash_not_mem_boolStr u1) (dash_not_mem_boolStr u2) heq
  refine ⟨het, hec, ?_, ?_⟩
  · cases u1 <;> cases u2 <;> simp_all [boolStr]
  · cases z1 <;> cases z2 <;> simp_all [boolStr]

theorem updateClockCacheKey_inj_dashFree
    (t1 c1 t2 c2 : List Char) (u1 u2 : Bool)
    (ht1 : '-' ∉ t1) (hc1 : '-' ∉ c1) (ht2 : '-' ∉ t2) (hc2 : '-' ∉ c2)
    (heq : updateClockCacheKey t1 c1 u1 = updateClockCacheKey t2 c2 u2) :
    t1 = t2 ∧ c1 = c2 ∧ u1 = u2 := by
  unfold updateClockCacheKey at heq
  obtain ⟨het, heq⟩ := append_sep_inj '-' t1 t2 _ _ ht1 ht2 heq
  obtain ⟨hec, heu⟩ := append_sep_inj '-' c1 c2 _ _ hc1 hc2 heq
  refine ⟨het, hec, ?_⟩
  cases u1 <;> cases u2 <;> simp_all [boolStr]

/-- C8 as amended: each key construction is a deterministic function of
its inputs, and the two four-field constructions are injective when the
text and color fields are free of their separator: the pipe join of
background_script.js and the dash join of the offscreen.js
generateCacheKey both recover the full tuple from the key.  The inline
cache key built by the offscreen.js updateClock omits showLeadingZero:
on dash-free fields it recovers only the (text, color, use24HourFormat)
triple, and whenever the display hour has two digits the keys computed
for showLeadingZero on and off coincide, so that construction cannot
distinguish tuples differing only in showLeadingZero. -/
theorem cacheKey_injectivity :
    (∀ (t1 c1 t2 c2 : List Char) (u1 z1 u2 z2 : Bool),
      '|' ∉ t1 → '|' ∉ c1 → '|' ∉ t2 → '|' ∉ c2 →
      generateCacheKey t1 c1 u1 z1 = generateCacheKey t2 c2 u2 z2 →
      t1 = t2 ∧ c1 = c2 ∧ u1 = u2 ∧ z1 = z2) ∧
    (∀ (t1 c1 t2 c2 : List Char) (u1 z1 u2 z2 : Bool),
      '-' ∉ t1 → '-' ∉ c1 → '-' ∉ t2 → '-' ∉ c2 →
      generateCacheKeyOffscreen t1 c1 u1 z1
        = generateCacheKeyOffscreen t2 c2 u2 z2 →
      t1 = t2 ∧ c1 = c2 ∧ u1 = u2 ∧ z1 = z2) ∧
    (∀ (t1 c1 t2 c2 : List Char) (u1 u2 : Bool),
      '-' ∉ t1 → '-' ∉ c1 → '-' ∉ t2 → '-' ∉ c2 →
      updateClockCacheKey t1 c1 u1 = updateClockCacheKey t2 c2 u2 →
      t1 = t2 ∧ c1 = c2 ∧ u1 = u2) ∧
    (∀ (h : Nat) (color : List Char) (u : Bool),
      10 ≤ displayHours h u →
      updateClockCacheKey (textToDraw h u true) color u
        = updateClockCacheKey (textToDraw h u false) color u) := by
  refine ⟨fun t1 c1 t2 c2 u1 z1 u2 z2 ht1 hc1 ht2 hc2 heq =>
      generateCacheKey_inj_pipeFree t1 c1 t2 c2 u1 z1 u2 z2
        ht1 hc1 ht2 hc2 heq,
    fun t1 c1 t2 c2 u1 z1 u2 z2 ht1 hc1 ht2 hc2 heq =>
      generateCacheKeyOffscreen_inj_dashFree t1 c1 t2 c2 u1 z1 u2 z2
        ht1 hc1 ht2 hc2 heq,
    fun t1 c1 t2 c2 u1 u2 ht1 hc1 ht2 hc2 heq =>
      updateClockCacheKey_inj_dashFree t1 c1 t2 c2 u1 u2
        ht1 hc1 ht2 hc2 heq,
    fun h color u hge => ?_⟩
  have htext : textToDraw h u true = textToDraw h u false := by
    simp only [textToDraw]
    rw [if_neg (fun hcond => absurd hcond.2 (by omega)),
      if_neg (fun hcond => absurd hcond.1 (by simp))]
  rw [htext]

/-- Witness for C8 as amended: the pipe join at pipe-free fields, the
offscreen dash join at dash-free fields, the three-field updateClock
key at dash-free fields, and the coincidence of the updateClock keys
for the two leading-zero settings at hour 12. -/
theorem cacheKey_injectivity_witness :
    ((['9'] : List Char) = ['9'] ∧
      (['b', 'l', 'a', 'c', 'k'] : List Char) = ['b', 'l', 'a', 'c', 'k'] ∧
      true = true ∧ false = false) ∧
    ((['9'] : List Char) = ['9'] ∧
      (['b', 'l', 'a', 'c', 'k'] : List Char) = ['b', 'l', 'a', 'c', 'k'] ∧
      true = true ∧ false = false) ∧
    ((['9'] : List Char) = ['9'] ∧
      (['b', 'l', 'a', 'c', 'k'] : List Char) = ['b', 'l', 'a', 'c', 'k'] ∧
      true = true) ∧
    updateClockCacheKey (textToDraw 12 false true)
        ['b', 'l', 'a', 'c', 'k'] false
      = updateClockCacheKey (textToDraw 12 false false)
        ['b', 'l', 'a', 'c', 'k'] false :=
  ⟨cacheKey_injectivity.1 ['9'] ['b', 'l', 'a', 'c', 'k']
      ['9'] ['b', 'l', 'a', 'c', 'k'] true false true false
      (by decide) (by decide) (by decide) (by decide) rfl,
   cacheKey_injectivity.2.1 ['9'] ['b', 'l', 'a', 'c', 'k']
      ['9'] ['b', 'l', 'a', 'c', 'k'] true false true false
      (by decide) (by decide) (by decide) (by decide) rfl,
   cacheKey_injectivity.2.2.1 ['9'] ['b', 'l', 'a', 'c', 'k']
      ['9'] ['b', 'l', 'a', 'c', 'k'] true true
      (by decide) (by decide) (by decide) (by decide) rfl,
   cacheKey_injectivity.2.2.2 12 ['b', 'l', 'a', 'c', 'k'] false
      (by decide)⟩

/-!  The render cache.  A JS Map is embedded as an insertion-ordered
association list: set on an existing key updates in place keeping the
position, set on a new key appends, delete removes the key, and the
first key in iteration order is the head. -/

/-- Map.has. -/
def mapHas [DecidableEq κ] (m : List (κ × α)) (k : κ) : Bool :=
  m.any fun p => decide (p.1 = k)

/-- Map.set. -/
def mapSet [DecidableEq κ] (m : List (κ × α)) (k : κ) (v : α) : List (κ × α) :=
  if mapHas m k then m.map fun p => if p.1 = k then (k, v) else p
  else m ++ [(k, v)]

/-- Map.delete. -/
def mapDelete [DecidableEq κ] (m : List (κ × α)) (k : κ) : List (κ × α) :=
  m.filter fun p => decide (p.1 ≠ k)

/-- Map.keys().next().value: the first key in insertion order, when the
map is nonempty. -/
def mapFirstKey (m : List (κ × α)) : Option κ :=
  m.head?.map Prod.fst

theorem mapHas_iff [DecidableEq κ] {m : List (κ × α)} {k : κ} :
    mapHas m k = true ↔ k ∈ m.map Prod.fst := by
  simp only [mapHas, List.any_eq_true, decide_eq_true_eq, List.mem_map]

theorem mapHas_congr {β : Type} [DecidableEq κ] {m₁ : List (κ × α)}
    {m₂ : List (κ × β)} {k : κ}
    (h : m₁.map Prod.fst = m₂.map Prod.fst) : mapHas m₁ k = mapHas m₂ k := by
  have h1 := @mapHas_iff _ _ _ m₁ k
  have h2 := @mapHas_iff _ _ _ m₂ k
  rw [h] at h1
  cases hb : mapHas m₂ k
  · cases hb1 : mapHas m₁ k
    · rfl
    · exact absurd (h2.mpr (h1.mp hb1)) (by simp [hb])
  · exact h1.mpr (h2.mp hb)

theorem mapHas_false_iff [DecidableEq κ] {m : List (κ × α)} {k : κ} :
    mapHas m k = false ↔ k ∉ m.map Prod.fst := by
  rw [Bool.eq_false_iff]
  exact not_congr mapHas_iff

theorem mapSet_fresh [DecidableEq κ] {m : List (κ × α)} {k : κ} (v : α)
    (h : mapHas m k = false) : mapSet m k v = m ++ [(k, v)] := by
  simp [mapSet, h]

theorem mapHas_append [DecidableEq κ] (m₁ m₂ : List (κ × α)) (k : κ) :
    mapHas (m₁ ++ m₂) k = (mapHas m₁ k || mapHas m₂ k) := by
  simp [mapHas]

theorem mapDelete_head [DecidableEq κ] (p : κ × α) (t : List (κ × α))
    (hnd : p.1 ∉ t.map Prod.fst) : mapDelete (p :: t) p.1 = t := by
  simp only [mapDelete, List.filter_cons]
  rw [if_neg (by simp)]
  apply List.filter_eq_self.mpr
  intro a ha
  simp only [decide_eq_true_eq]
  intro he
  exact hnd (he ▸ List.mem_map_of_mem Prod.fst ha)

/-- OptimizedIconCache from background_script.js: a bounded map of
rendered values plus a parallel access-order map of timestamps. -/
structure OptimizedIconCache (κ α : Type) where
  maxSize : Nat
  cache : List (κ × α)
  accessOrder : List (κ × Nat)

/-- OptimizedIconCache.set: when the cache is at capacity and the key is
new, delete the first key of the access-order map from both maps, then
insert the new entry and its timestamp. -/
def OptimizedIconCache.set [DecidableEq κ] (c : OptimizedIconCache κ α)
    (key : κ) (v : α) (now : Nat) : OptimizedIconCache κ α :=
  if c.cache.length ≥ c.maxSize ∧ mapHas c.cache key = false then
    match mapFirstKey c.accessOrder with
    | some oldest =>
      { c with cache := mapSet (mapDelete c.cache oldest) key v,
               accessOrder := mapSet (mapDelete c.accessOrder oldest) key now }
    | none =>
      { c with cache := mapSet c.cache key v,
               accessOrder := mapSet c.accessOrder key now }
  else
    { c with cache := mapSet c.cache key v,
             accessOrder := mapSet c.accessOrder key now }

/-- OptimizedIconCache.has. -/
def OptimizedIconCache.hasKey [DecidableEq κ] (c : OptimizedIconCache κ α)
    (key : κ) : Bool :=
  mapHas c.cache key

/-- OptimizedIconCache.clear: empty both underlying maps. -/
def OptimizedIconCache.clear (c : OptimizedIconCache κ α) :
    OptimizedIconCache κ α :=
  { c with cache := [], accessOrder := [] }

/-- The size getter of OptimizedIconCache. -/
def OptimizedIconCache.size (c : OptimizedIconCache κ α) : Nat :=
  c.cache.length

/-- A sequence of insertions, timestamps passed as 0 (they do not affect
membership, order or length). -/
def insertAll [DecidableEq κ] (c : OptimizedIconCache κ α)
    (l : List (κ × α)) : OptimizedIconCache κ α :=
  l.foldl (fun c p => c.set p.1 p.2 0) c

/-- addToCache from the offscreen.js background variant: when at
capacity, delete the first-inserted key, then insert. -/
def addToCache [DecidableEq κ] (maxSize : Nat) (m : List (κ × α))
    (key : κ) (v : α) : List (κ × α) :=
  if m.length ≥ maxSize then
    match mapFirstKey m with
    | some firstKey => mapSet (mapDelete m firstKey) key v
    | none => mapSet m key v
  else mapSet m key v

/-- A sequence of addToCache insertions. -/
def addAll [DecidableEq κ] (maxSize : Nat) (m : List (κ × α))
    (l : List (κ × α)) : List (κ × α) :=
  l.foldl (fun m p => addToCache maxSize m p.1 p.2) m

theorem insertAll_fresh [DecidableEq κ] (l : List (κ × α)) :
    ∀ c : OptimizedIconCache κ α,
      (l.map Prod.fst).Nodup →
      (∀ k ∈ l.map Prod.fst, mapHas c.cache k = false) →
      c.cache.length + l.length ≤ c.maxSize →
      c.accessOrder.map Prod.fst = c.cache.map Prod.fst →
      (insertAll c l).cache = c.cache ++ l ∧
      (insertAll c l).accessOrder.map Prod.fst
        = (insertAll c l).cache.map Prod.fst ∧
      (insertAll c l).maxSize = c.maxSize := by
  induction l with
  | nil =>
    intro c _ _ _ hsync
    exact ⟨by simp [insertAll], by simpa [insertAll] using hsync, rfl⟩
  | cons p rest ih =>
    intro c hnd hfresh hlen hsync
    have hfp : mapHas c.cache p.1 = false := hfresh p.1 (by simp)
    have hfa : mapHas c.accessOrder p.1 = false := by
      rw [mapHas_congr hsync]; exact hfp
    have hstep : c.set p.1 p.2 0 =
        { c with cache := c.cache ++ [(p.1, p.2)],
                 accessOrder := c.accessOrder ++ [(p.1, 0)] } := by
      unfold OptimizedIconCache.set
      rw [if_neg (by
        intro hcond
        obtain ⟨hge, _⟩ := hcond
        simp only [List.length_cons] at hlen
        omega)]
      rw [mapSet_fresh _ hfp, mapSet_fresh _ hfa]
    have hrest : ∀ k ∈ rest.map Prod.fst,
        mapHas (c.cache ++ [(p.1, p.2)]) k = false := by
      intro k hk
      rw [mapHas_append]
      have h1 : mapHas c.cache k = false := hfresh k (by simp [hk])
      have h2 : mapHas [(p.1, p.2)] k = false := by
        apply mapHas_false_iff.mpr
        simp only [List.map_cons, List.map_nil, List.mem_singleton]
        intro he
        rw [List.map_cons, List.nodup_cons] at hnd
        exact hnd.1 (he ▸ hk)
      rw [h1, h2]
      rfl
    have ihres := ih { c with cache := c.cache ++ [(p.1, p.2)],
                              accessOrder := c.accessOrder ++ [(p.1, 0)] }
      (by rw [List.map_cons, List.nodup_cons] at hnd; exact hnd.2)
      hrest
      (by simp at hlen ⊢; omega)
      (by simp [hsync])
    have hfold : insertAll c (p :: rest) =
        insertAll { c with cache := c.cache ++ [(p.1, p.2)],
                           accessOrder := c.accessOrder ++ [(p.1, 0)] } rest := by
      simp [insertAll, hstep]
    rw [hfold]
    refine ⟨?_, ihres.2.1, ihres.2.2⟩
    rw [ihres.1]
    simp

theorem set_at_capacity [DecidableEq κ] (c : OptimizedIconCache κ α)
    (k : κ) (v : α) (t : Nat)
    (hsync : c.accessOrder.map Prod.fst = c.cache.map Prod.fst)
    (hnd : (c.cache.map Prod.fst).Nodup)
    (hfull : c.cache.length ≥ c.maxSize) (hpos : 1 ≤ c.maxSize)
    (hfresh : mapHas c.cache k = false) :
    (c.set k v t).cache = c.cache.tail ++ [(k, v)] ∧
    (c.set k v t).accessOrder.map Prod.fst
      = (c.set k v t).cache.map Prod.fst ∧
    (c.set k v t).maxSize = c.maxSize := by
  obtain ⟨p, tl, hc⟩ : ∃ p tl, c.cache = p :: tl := by
    cases hcc : c.cache with
    | nil => rw [hcc] at hfull; simp at hfull; omega
    | cons p tl => exact ⟨p, tl, rfl⟩
  obtain ⟨q, tl', ha⟩ : ∃ q tl', c.accessOrder = q :: tl' := by
    cases hca : c.accessOrder with
    | nil => rw [hca, hc] at hsync; simp at hsync
    | cons q tl' => exact ⟨q, tl', rfl⟩
  rw [hc, ha] at hsync
  simp only [List.map_cons, List.cons.injEq] at hsync
  obtain ⟨hq1, hkeys⟩ := hsync
  have hpt : p.1 ∉ tl.map Prod.fst := by
    rw [hc, List.map_cons, List.nodup_cons] at hnd
    exact hnd.1
  have hpt' : p.1 ∉ tl'.map Prod.fst := by
    rw [hkeys]
    exact hpt
  have hfirst : mapFirstKey c.accessOrder = some p.1 := by
    rw [ha, mapFirstKey]
    simp [hq1]
  have hdelc : mapDelete c.cache p.1 = tl := by
    rw [hc]; exact mapDelete_head p tl hpt
  have hdela : mapDelete c.accessOrder p.1 = tl' := by
    rw [ha]
    have := mapDelete_head q tl' (hq1 ▸ hpt')
    rwa [hq1] at this
  have hkc : k ∉ c.cache.map Prod.fst := mapHas_false_iff.mp hfresh
  have hktl : mapHas tl k = false :=
    mapHas_false_iff.mpr fun hmem => hkc (by rw [hc]; simp [hmem])
  have hktl' : mapHas tl' k = false := by
    rw [mapHas_congr hkeys]
    exact hktl
  unfold OptimizedIconCache.set
  rw [if_pos ⟨hfull, hfresh⟩, hfirst]
  simp only
  rw [hdelc, hdela, mapSet_fresh _ hktl, mapSet_fresh _ hktl']
  refine ⟨by simp [hc], ?_, trivial⟩
  simp only [List.map_append]
  simp [hkeys]

theorem mapSet_length [DecidableEq κ] (m : List (κ × α)) (k : κ) (v : α) :
    (mapSet m k v).length
      = if mapHas m k = true then m.length else m.length + 1 := by
  unfold mapSet
  split <;> simp_all

theorem addAll_fresh [DecidableEq κ] (maxSize : Nat) (l : List (κ × α)) :
    ∀ m : List (κ × α),
      (l.map Prod.fst).Nodup →
      (∀ k ∈ l.map Prod.fst, mapHas m k = false) →
      m.length + l.length ≤ maxSize →
      addAll maxSize m l = m ++ l := by
  induction l with
  | nil => intro m _ _ _; simp [addAll]
  | cons p rest ih =>
    intro m hnd hfresh hlen
    have hfp : mapHas m p.1 = false := hfresh p.1 (by simp)
    have hstep : addToCache maxSize m p.1 p.2 = m ++ [(p.1, p.2)] := by
      unfold addToCache
      rw [if_neg (by simp only [List.length_cons] at hlen; omega)]
      exact mapSet_fresh _ hfp
    have hfold : addAll maxSize m (p :: rest)
        = addAll maxSize (m ++ [(p.1, p.2)]) rest := by
      simp [addAll, hstep]
    have hrest : ∀ k ∈ rest.map Prod.fst,
        mapHas (m ++ [(p.1, p.2)]) k = false := by
      intro k hk
      rw [mapHas_append]
      have h1 : mapHas m k = false := hfresh k (by simp [hk])
      have h2 : mapHas [(p.1, p.2)] k = false := by
        apply mapHas_false_iff.mpr
        simp only [List.map_cons, List.map_nil, List.mem_singleton]
        intro he
        rw [List.map_cons, List.nodup_cons] at hnd
        exact hnd.1 (he ▸ hk)
      rw [h1, h2]
      rfl
    rw [hfold, ih (m ++ [(p.1, p.2)])
      (by rw [List.map_cons, List.nodup_cons] at hnd; exact hnd.2)
      hrest
      (by simp only [List.length_append, List.length_cons,
            List.length_nil] at hlen ⊢; omega)]
    simp

theorem addToCache_at_capacity [DecidableEq κ] (maxSize : Nat)
    (p : κ × α) (tl : List (κ × α)) (k : κ) (v : α)
    (hnd : p.1 ∉ tl.map Prod.fst)
    (hfull : (p :: tl).length ≥ maxSize)
    (hfresh : mapHas (p :: tl) k = false) :
    addToCache maxSize (p :: tl) k v = tl ++ [(k, v)] := by
  unfold addToCache
  rw [if_pos hfull]
  have hfirst : mapFirstKey (p :: tl) = some p.1 := rfl
  rw [hfirst]
  simp only
  rw [mapDelete_head p tl hnd]
  apply mapSet_fresh
  apply mapHas_false_iff.mpr
  intro hmem
  exact mapHas_false_iff.mp hfresh (by simp [hmem])

theorem set_length_le [DecidableEq κ] (c : OptimizedIconCache κ α)
    (k : κ) (v : α) (t : Nat)
    (hsync : c.accessOrder.map Prod.fst = c.cache.map Prod.fst)
    (hnd : (c.cache.map Prod.fst).Nodup)
    (hpos : 1 ≤ c.maxSize)
    (hle : c.cache.length ≤ c.maxSize) :
    (c.set k v t).cache.length ≤ c.maxSize := by
  by_cases hhas : mapHas c.cache k = true
  · unfold OptimizedIconCache.set
    rw [if_neg (by intro h; rw [hhas] at h; exact absurd h.2 (by simp))]
    simp only
    rw [mapSet_length, if_pos hhas]
    exact hle
  · have hfalse : mapHas c.cache k = false := by
      simpa using hhas
    by_cases hfull : c.cache.length ≥ c.maxSize
    · have hev := set_at_capacity c k v t hsync hnd hfull hpos hfalse
      rw [hev.1]
      simp only [List.length_append, List.length_tail, List.length_cons,
        List.length_nil]
      omega
    · unfold OptimizedIconCache.set
      rw [if_neg (fun h => hfull h.1)]
      simp only
      rw [mapSet_length, if_neg (by simp [hfalse])]
      omega

/-- C3: inserting N+1 pairwise-distinct keys into an empty cache of
capacity N at least 1 leaves exactly the first-inserted key absent, all
N later keys present, and the size exactly N — in both cache variants,
OptimizedIconCache.set of background_script.js and addToCache of the
offscreen.js variant.  In general, on a well-formed cache state an
insertion never grows the cache beyond its capacity, and an insertion of
a new key at capacity evicts the insertion-order-oldest entry (the head)
before appending the new one. -/
theorem cache_capacity_eviction {κ α : Type} [DecidableEq κ]
    (N : Nat) (hN : 1 ≤ N) (p : κ × α) (rest : List (κ × α))
    (hlen : rest.length = N)
    (hnd : ((p :: rest).map Prod.fst).Nodup) :
    ((insertAll ⟨N, [], []⟩ (p :: rest)).hasKey p.1 = false ∧
     (∀ q ∈ rest, (insertAll ⟨N, [], []⟩ (p :: rest)).hasKey q.1 = true) ∧
     (insertAll (⟨N, [], []⟩ : OptimizedIconCache κ α) (p :: rest)).size
       = N) ∧
    (mapHas (addAll N [] (p :: rest)) p.1 = false ∧
     (∀ q ∈ rest, mapHas (addAll N [] (p :: rest)) q.1 = true) ∧
     (addAll N ([] : List (κ × α)) (p :: rest)).length = N) ∧
    (∀ (c : OptimizedIconCache κ α) (k : κ) (v : α) (t : Nat),
      c.accessOrder.map Prod.fst = c.cache.map Prod.fst →
      (c.cache.map Prod.fst).Nodup → 1 ≤ c.maxSize →
      c.cache.length ≤ c.maxSize →
      (c.set k v t).cache.length ≤ c.maxSize) ∧
    (∀ (c : OptimizedIconCache κ α) (k : κ) (v : α) (t : Nat),
      c.accessOrder.map Prod.fst = c.cache.map Prod.fst →
      (c.cache.map Prod.fst).Nodup → 1 ≤ c.maxSize →
      c.cache.length ≥ c.maxSize → mapHas c.cache k = false →
      (c.set k v t).cache = c.cache.tail ++ [(k, v)]) := by
  obtain hnil | ⟨mid, q, hconcat⟩ := List.eq_nil_or_concat rest
  · rw [hnil] at hlen; simp at hlen; omega
  rw [List.concat_eq_append] at hconcat
  subst hconcat
  have hmidlen : mid.length = N - 1 := by
    simp only [List.length_append, List.length_cons, List.length_nil] at hlen
    omega
  have hnd' := hnd
  rw [List.map_cons, List.nodup_cons] at hnd'
  obtain ⟨hp_not, hnd2⟩ := hnd'
  simp only [List.map_append, List.map_cons, List.map_nil] at hp_not hnd2
  have hpm : p.1 ∉ mid.map Prod.fst := fun h => hp_not (List.mem_append_left _ h)
  have hpq : p.1 ≠ q.1 := fun h => hp_not (List.mem_append_right _ (by simp [h]))
  have hnd3 := List.nodup_append.mp hnd2
  have hndm : (mid.map Prod.fst).Nodup := hnd3.1
  have hqm : q.1 ∉ mid.map Prod.fst := fun h => hnd3.2.2 h (by simp)
  have hndpm : ((p :: mid).map Prod.fst).Nodup := by
    rw [List.map_cons, List.nodup_cons]; exact ⟨hpm, hndm⟩
  have hqpm : q.1 ∉ (p :: mid).map Prod.fst := by
    rw [List.map_cons]
    intro h
    rcases List.mem_cons.mp h with h | h
    · exact hpq h.symm
    · exact hqm h
  refine ⟨?_, ?_, fun c k v t hs hn hp hl => set_length_le c k v t hs hn hp hl,
    fun c k v t hs hn hp hf hfr =>
      (set_at_capacity c k v t hs hn hf hp hfr).1⟩
  · have hfill := insertAll_fresh (p :: mid)
      (⟨N, [], []⟩ : OptimizedIconCache κ α) hndpm (fun k _ => rfl)
      (by simp only [List.length_cons, List.length_nil]; omega) rfl
    have hc1 : (insertAll (⟨N, [], []⟩ : OptimizedIconCache κ α)
        (p :: mid)).cache = p :: mid := by
      simpa using hfill.1
    have hmax : (insertAll (⟨N, [], []⟩ : OptimizedIconCache κ α)
        (p :: mid)).maxSize = N := hfill.2.2
    have hev := set_at_capacity
      (insertAll (⟨N, [], []⟩ : OptimizedIconCache κ α) (p :: mid)) q.1 q.2 0
      hfill.2.1
      (by rw [hc1]; exact hndpm)
      (by rw [hc1, hmax]; simp only [List.length_cons]; omega)
      (by rw [hmax]; exact hN)
      (by rw [hc1]; exact mapHas_false_iff.mpr hqpm)
    have hsplit : insertAll (⟨N, [], []⟩ : OptimizedIconCache κ α)
        (p :: (mid ++ [q]))
        = (insertAll (⟨N, [], []⟩ : OptimizedIconCache κ α)
            (p :: mid)).set q.1 q.2 0 := by
      show insertAll _ ((p :: mid) ++ [q]) = _
      simp [insertAll, List.foldl_append]
    have hfinal : (insertAll (⟨N, [], []⟩ : OptimizedIconCache κ α)
        (p :: (mid ++ [q]))).cache = mid ++ [(q.1, q.2)] := by
      rw [hsplit, hev.1, hc1, List.tail_cons]
    refine ⟨?_, ?_, ?_⟩
    · unfold OptimizedIconCache.hasKey
      rw [hfinal]
      apply mapHas_false_iff.mpr
      simp only [List.map_append, List.map_cons, List.map_nil,
        List.mem_append, List.mem_singleton]
      rintro (h | h)
      · exact hpm h
      · exact hpq h
    · intro q' hq'
      unfold OptimizedIconCache.hasKey
      rw [hfinal]
      apply mapHas_iff.mpr
      simp only [List.map_append, List.map_cons, List.map_nil,
        List.mem_append, List.mem_singleton]
      rcases List.mem_append.mp hq' with h | h
      · exact Or.inl (List.mem_map_of_mem Prod.fst h)
      · rw [List.mem_singleton.mp h]
        exact Or.inr rfl
    · unfold OptimizedIconCache.size
      rw [hfinal]
      simp only [List.length_append, List.length_cons, List.length_nil]
      omega
  · have hfillB := addAll_fresh N (p :: mid) [] hndpm (fun k _ => rfl)
      (by simp only [List.length_cons, List.length_nil]; omega)
    have hcB : addAll N ([] : List (κ × α)) (p :: mid) = p :: mid := by
      simpa using hfillB
    have hevB := addToCache_at_capacity N p mid q.1 q.2 hpm
      (by simp only [List.length_cons]; omega)
      (mapHas_false_iff.mpr hqpm)
    have hsplitB : addAll N ([] : List (κ × α)) (p :: (mid ++ [q]))
        = addToCache N (addAll N [] (p :: mid)) q.1 q.2 := by
      show addAll N _ ((p :: mid) ++ [q]) = _
      simp [addAll, List.foldl_append]
    have hfinalB : addAll N ([] : List (κ × α)) (p :: (mid ++ [q]))
        = mid ++ [(q.1, q.2)] := by
      rw [hsplitB, hcB, hevB]
    refine ⟨?_, ?_, ?_⟩
    · rw [hfinalB]
      apply mapHas_false_iff.mpr
      simp only [List.map_append, List.map_cons, List.map_nil,
        List.mem_append, List.mem_singleton]
      rintro (h | h)
      · exact hpm h
      · exact hpq h
    · intro q' hq'
      rw [hfinalB]
      apply mapHas_iff.mpr
      simp only [List.map_append, List.map_cons, List.map_nil,
        List.mem_append, List.mem_singleton]
      rcases List.mem_append.mp hq' with h | h
      · exact Or.inl (List.mem_map_of_mem Prod.fst h)
      · rw [List.mem_singleton.mp h]
        exact Or.inr rfl
    · rw [hfinalB]
      simp only [List.length_append, List.length_cons, List.length_nil]
      omega

/-- Witness for C3 at capacity 1 and the two distinct keys 0 and 1. -/
theorem cache_capacity_eviction_witness :
    ((insertAll (⟨1, [], []⟩ : OptimizedIconCache Nat Nat)
        [(0, 10), (1, 11)]).hasKey 0 = false ∧
     (∀ q ∈ [(1, 11)],
       (insertAll (⟨1, [], []⟩ : OptimizedIconCache Nat Nat)
         [(0, 10), (1, 11)]).hasKey q.1 = true) ∧
     (insertAll (⟨1, [], []⟩ : OptimizedIconCache Nat Nat)
       [(0, 10), (1, 11)]).size = 1) ∧
    (mapHas (addAll 1 [] [(0, 10), (1, 11)]) 0 = false ∧
     (∀ q ∈ [(1, 11)], mapHas (addAll 1 [] [(0, 10), (1, 11)]) q.1 = true) ∧
     (addAll 1 ([] : List (Nat × Nat)) [(0, 10), (1, 11)]).length = 1) ∧
    (∀ (c : OptimizedIconCache Nat Nat) (k v t : Nat),
      c.accessOrder.map Prod.fst = c.cache.map Prod.fst →
      (c.cache.map Prod.fst).Nodup → 1 ≤ c.maxSize →
      c.cache.length ≤ c.maxSize →
      (c.set k v t).cache.length ≤ c.maxSize) ∧
    (∀ (c : OptimizedIconCache Nat Nat) (k v t : Nat),
      c.accessOrder.map Prod.fst = c.cache.map Prod.fst →
      (c.cache.map Prod.fst).Nodup → 1 ≤ c.maxSize →
      c.cache.length ≥ c.maxSize → mapHas c.cache k = false →
      (c.set k v t).cache = c.cache.tail ++ [(k, v)]) :=
  cache_capacity_eviction 1 (by decide) (0, 10) [(1, 11)] (by decide) (by decide)

/-!  Draw coordinator (updateClock), background_script.js variant.
A request runs synchronously from the cache and pending-draws checks to
the registration of a new draw promise, so each request is one atomic
step; a completion step is the settling of a registered draw.  The
flight field is a ghost observation listing the keys of render
dispatches sent to the rendering surface whose draw has not settled yet,
and total counts all dispatches ever sent. -/

/-- Coordinator state of the background_script.js variant. -/
structure CoordA (κ : Type) where
  cache : List κ
  pending : List κ
  flight : List κ
  total : Nat

/-- A coordinator event: an updateClock request for a key, or the
settling (with success flag) of the in-flight draw for a key. -/
inductive CoordEvent (κ : Type) where
  | request (k : κ)
  | complete (k : κ) (ok : Bool)

/-- One coordinator step of the background_script.js updateClock: a
cached key answers from the cache; a key with an in-flight draw awaits
that draw and returns; otherwise a new draw is registered in
pendingDraws and dispatched.  A completion removes the key from
pendingDraws in the finally clause, caching the bitmap on success. -/
def coordStepA [DecidableEq κ] (s : CoordA κ) (e : CoordEvent κ) : CoordA κ :=
  match e with
  | CoordEvent.request k =>
    if k ∈ s.cache then s
    else if k ∈ s.pending then s
    else { s with pending := k :: s.pending, flight := k :: s.flight,
                  total := s.total + 1 }
  | CoordEvent.complete k ok =>
    { cache := if ok then k :: s.cache else s.cache,
      pending := s.pending.erase k,
      flight := s.flight.erase k,
      total := s.total }

/-- Running a sequence of coordinator events. -/
def coordRunA [DecidableEq κ] (s : CoordA κ) (es : List (CoordEvent κ)) :
    CoordA κ :=
  es.foldl coordStepA s

/-- An event sequence is valid when every completion settles a draw that
is actually in flight. -/
def coordValidA [DecidableEq κ] (s : CoordA κ) : List (CoordEvent κ) → Bool
  | [] => true
  | e :: es =>
    (match e with
     | CoordEvent.request _ => true
     | CoordEvent.complete k _ => decide (k ∈ s.pending)) &&
      coordValidA (coordStepA s e) es

/-- The coordinator invariant: pendingDraws holds no duplicate keys, and
the in-flight dispatches are exactly the pending draws, counted per
key. -/
def InvA [DecidableEq κ] (s : CoordA κ) : Prop :=
  s.pending.Nodup ∧ ∀ k, s.flight.count k = s.pending.count k

theorem invA_step [DecidableEq κ] (s : CoordA κ) (e : CoordEvent κ)
    (hInv : InvA s)
    (hvalid : match e with
      | CoordEvent.request _ => True
      | CoordEvent.complete k _ => k ∈ s.pending) :
    InvA (coordStepA s e) := by
  obtain ⟨hnd, hcount⟩ := hInv
  cases e with
  | request k =>
    simp only [coordStepA]
    by_cases hc : k ∈ s.cache
    · rw [if_pos hc]; exact ⟨hnd, hcount⟩
    · rw [if_neg hc]
      by_cases hp : k ∈ s.pending
      · rw [if_pos hp]; exact ⟨hnd, hcount⟩
      · rw [if_neg hp]
        refine ⟨List.nodup_cons.mpr ⟨hp, hnd⟩, fun k' => ?_⟩
        simp only [List.count_cons]
        rw [hcount k']
  | complete k ok =>
    simp only [coordStepA, InvA]
    refine ⟨hnd.erase k, fun k' => ?_⟩
    rw [List.count_erase, List.count_erase, hcount k']

theorem invA_run [DecidableEq κ] (es : List (CoordEvent κ)) :
    ∀ s : CoordA κ, InvA s → coordValidA s es = true →
      InvA (coordRunA s es) := by
  induction es with
  | nil => intro s h _; exact h
  | cons e es ih =>
    intro s h hval
    simp only [coordValidA, Bool.and_eq_true] at hval
    have hstep : InvA (coordStepA s e) := by
      apply invA_step s e h
      cases e with
      | request k => trivial
      | complete k ok => exact of_decide_eq_true hval.1
    have : coordRunA s (e :: es) = coordRunA (coordStepA s e) es := rfl
    rw [this]
    exact ih (coordStepA s e) hstep hval.2

/-!  Draw coordinator, offscreen.js variant.  The cache fast path tests
a property access on a Map (square brackets, not Map.get), which is
always undefined and never hits.  A request whose key has an in-flight
draw awaits that draw as a waiter instead of dispatching; when the draw
settles, a waiter that was resumed by a rejection rethrows into the
outer catch and returns, while a waiter resumed by success finds the
key in the cache (the message listener caches before resolving) and
returns, dispatching a new draw only if the key were missing. -/

/-- Coordinator state of the offscreen.js variant, with waiting the
multiset of waiters parked on in-flight keys and total the ghost count
of dispatches. -/
structure CoordB (κ : Type) where
  cache : List κ
  pending : List κ
  waiting : List κ
  total : Nat

/-- One updateClock request in the offscreen.js variant. -/
def coordStepB_request [DecidableEq κ] (s : CoordB κ) (k : κ) : CoordB κ :=
  if k ∈ s.pending then { s with waiting := k :: s.waiting }
  else { s with pending := k :: s.pending, total := s.total + 1 }

/-- Settling of the in-flight draw for a key in the offscreen.js
variant: cache on success, remove the key from pendingDraws, and resume
all waiters for the key; a waiter redispatches only when its await
succeeded and the key is not in the cache. -/
def coordStepB_complete [DecidableEq κ] (s : CoordB κ) (k : κ) (ok : Bool) :
    CoordB κ :=
  let cache' := if ok then k :: s.cache else s.cache
  let waiterDispatches := if ok ∧ k ∉ cache' then s.waiting.count k else 0
  { cache := cache',
    pending := s.pending.erase k,
    waiting := s.waiting.filter (fun x => decide (x ≠ k)),
    total := s.total + waiterDispatches }

/-- C1: in the background_script.js coordinator, a request for a key
with an in-flight draw awaits it and changes nothing (no dispatch); two
requests for the same uncached key with no completion in between cause
exactly one dispatch and leave exactly one draw in flight; along any
valid event sequence from the initial state, at most one dispatch per
key is ever in flight.  In the offscreen.js coordinator, the same
two-request scenario also causes exactly one dispatch whether the draw
then succeeds or fails, and a completion step never dispatches. -/
theorem draw_coordinator_single_dispatch {κ : Type} [DecidableEq κ] :
    (∀ (s : CoordA κ) (k : κ), k ∈ s.pending →
      coordStepA s (CoordEvent.request k) = s) ∧
    (∀ (s : CoordA κ) (k : κ), k ∉ s.cache → k ∉ s.pending →
      (coordRunA s [CoordEvent.request k, CoordEvent.request k]).total
        = s.total + 1 ∧
      (coordRunA s [CoordEvent.request k, CoordEvent.request k]).flight.count k
        = s.flight.count k + 1) ∧
    (∀ es : List (CoordEvent κ),
      coordValidA (⟨[], [], [], 0⟩ : CoordA κ) es = true →
      ∀ k, (coordRunA (⟨[], [], [], 0⟩ : CoordA κ) es).flight.count k ≤ 1) ∧
    (∀ (s : CoordB κ) (k : κ) (ok : Bool), k ∉ s.pending →
      (coordStepB_complete (coordStepB_request (coordStepB_request s k) k)
        k ok).total = s.total + 1) ∧
    (∀ (s : CoordB κ) (k : κ) (ok : Bool),
      (coordStepB_complete s k ok).total = s.total) := by
  have hBnever : ∀ (s : CoordB κ) (k : κ) (ok : Bool),
      (coordStepB_complete s k ok).total = s.total := by
    intro s k ok
    unfold coordStepB_complete
    cases ok with
    | true => simp
    | false => simp
  refine ⟨?_, ?_, ?_, ?_, hBnever⟩
  · intro s k hp
    simp only [coordStepA]
    by_cases hc : k ∈ s.cache
    · rw [if_pos hc]
    · rw [if_neg hc, if_pos hp]
  · intro s k hc hp
    have h1 : coordStepA s (CoordEvent.request k)
        = { s with pending := k :: s.pending, flight := k :: s.flight,
                   total := s.total + 1 } := by
      simp only [coordStepA]
      rw [if_neg hc, if_neg hp]
    have h2 : coordStepA (coordStepA s (CoordEvent.request k))
        (CoordEvent.request k) = coordStepA s (CoordEvent.request k) := by
      rw [h1]
      simp only [coordStepA]
      rw [if_neg hc, if_pos (List.mem_cons_self k s.pending)]
    have hrun : coordRunA s [CoordEvent.request k, CoordEvent.request k]
        = coordStepA s (CoordEvent.request k) := by
      simp [coordRunA, List.foldl, h2]
    rw [hrun, h1]
    exact ⟨rfl, by simp [List.count_cons_self]⟩
  · intro es hval k
    have hinv := invA_run es (⟨[], [], [], 0⟩ : CoordA κ)
      ⟨List.nodup_nil, fun _ => rfl⟩ hval
    rw [hinv.2 k]
    exact List.nodup_iff_count_le_one.mp hinv.1 k
  · intro s k ok hp
    have h1 : coordStepB_request s k
        = { s with pending := k :: s.pending, total := s.total + 1 } := by
      unfold coordStepB_request
      rw [if_neg hp]
    have h2 : coordStepB_request (coordStepB_request s k) k
        = { s with pending := k :: s.pending, total := s.total + 1,
                   waiting := k :: s.waiting } := by
      rw [h1]
      unfold coordStepB_request
      rw [if_pos (List.mem_cons_self k s.pending)]
    rw [h2, hBnever]

/-- Witness for C1: the two-request scenario at the concrete key 5 from
the empty initial state, in both coordinator variants. -/
theorem draw_coordinator_single_dispatch_witness :
    (coordRunA (⟨[], [], [], 0⟩ : CoordA Nat)
      [CoordEvent.request 5, CoordEvent.request 5]).total = 0 + 1 ∧
    (coordStepB_complete (coordStepB_request (coordStepB_request
      (⟨[], [], [], 0⟩ : CoordB Nat) 5) 5) 5 true).total = 0 + 1 :=
  ⟨((@draw_coordinator_single_dispatch Nat _).2.1 ⟨[], [], [], 0⟩ 5
      (by decide) (by decide)).1,
   (@draw_coordinator_single_dispatch Nat _).2.2.2.1 ⟨[], [], [], 0⟩ 5 true
      (by decide)⟩

/-!  Draw lifecycle cleanup (drawIcon and the finally clause of
updateClock). -/

/-- The per-draw tracking state: the keys of pendingIconCallbacks and
of pendingDraws. -/
structure DrawState (κ : Type) where
  callbacks : List κ
  draws : List κ

/-- How a draw settles. -/
inductive DrawOutcome where
  | success
  | failure
  | timedOut

/-- The settled promise result, as observed by the caller. -/
inductive DrawResult where
  | resolved
  | rejectedTimeout
  | rejectedError
deriving DecidableEq

/-- Registration of a draw for a key: updateClock stores the draw
promise in pendingDraws and drawIcon stores the resolve/reject pair in
pendingIconCallbacks. -/
def drawStart [DecidableEq κ] (s : DrawState κ) (k : κ) : DrawState κ :=
  { callbacks := s.callbacks ++ [k], draws := s.draws ++ [k] }

/-- The 5-second timeout handler of drawIcon in background_script.js:
delete the callback entry, then reject with the timeout error. -/
def timeoutFireA [DecidableEq κ] (s : DrawState κ) (k : κ) : DrawState κ :=
  { s with callbacks := s.callbacks.filter (fun x => decide (x ≠ k)) }

/-- The message listener settling a draw (both variants): invoke the
stored resolve or reject, then delete the callback entry. -/
def listenerSettle [DecidableEq κ] (s : DrawState κ) (k : κ) : DrawState κ :=
  { s with callbacks := s.callbacks.filter (fun x => decide (x ≠ k)) }

/-- The finally clause of updateClock (both variants): remove the key
from pendingDraws once the draw promise settles. -/
def drawFinally [DecidableEq κ] (s : DrawState κ) (k : κ) : DrawState κ :=
  { s with draws := s.draws.filter (fun x => decide (x ≠ k)) }

/-- Full settling for a key in the background_script.js variant: the
handler that fires (timeout handler, or message listener on a success
or failure response) followed by the finally clause, paired with the
promise result. -/
def settleA [DecidableEq κ] (s : DrawState κ) (k : κ) (o : DrawOutcome) :
    DrawState κ × DrawResult :=
  match o with
  | DrawOutcome.timedOut => (drawFinally (timeoutFireA s k) k,
      DrawResult.rejectedTimeout)
  | DrawOutcome.success => (drawFinally (listenerSettle s k) k,
      DrawResult.resolved)
  | DrawOutcome.failure => (drawFinally (listenerSettle s k) k,
      DrawResult.rejectedError)

/-- The timeout handler of drawIcon in the offscreen.js variant: it
only rejects; the cleanup closure that would delete the callback entry
runs solely inside the stored resolve/reject callbacks, which the
timeout path does not invoke. -/
def timeoutFireB (s : DrawState κ) (_ : κ) : DrawState κ := s

/-- Full settling for a key in the offscreen.js variant. -/
def settleB [DecidableEq κ] (s : DrawState κ) (k : κ) (o : DrawOutcome) :
    DrawState κ × DrawResult :=
  match o with
  | DrawOutcome.timedOut => (drawFinally (timeoutFireB s k) k,
      DrawResult.rejectedTimeout)
  | DrawOutcome.success => (drawFinally (listenerSettle s k) k,
      DrawResult.resolved)
  | DrawOutcome.failure => (drawFinally (listenerSettle s k) k,
      DrawResult.rejectedError)

/-- Counterexample to C2: in the offscreen.js variant, after the 5
second timeout fires for a registered draw, the promise rejects with
the timeout error and the key is removed from pendingDraws, but the
pendingIconCallbacks entry for the key is still present. -/
theorem drawIcon_timeout_leaves_callback :
    (settleB (drawStart (⟨[], []⟩ : DrawState Nat) 5) 5
      DrawOutcome.timedOut).1.callbacks = [5] ∧
    (settleB (drawStart (⟨[], []⟩ : DrawState Nat) 5) 5
      DrawOutcome.timedOut).2 = DrawResult.rejectedTimeout ∧
    (settleB (drawStart (⟨[], []⟩ : DrawState Nat) 5) 5
      DrawOutcome.timedOut).1.draws = [] := by
  decide

/-- C2 as amended: in the background_script.js variant the claim holds
in full — on success, failure and timeout alike the key ends up in
neither pendingIconCallbacks nor pendingDraws, and the timeout path
rejects with the timeout error.  In the offscreen.js variant the key is
always removed from pendingDraws and the timeout rejects with the
timeout error, but only the success and failure paths remove the
pendingIconCallbacks entry; the timeout path leaves it in place. -/
theorem draw_cleanup_spec {κ : Type} [DecidableEq κ] :
    (∀ (s : DrawState κ) (k : κ) (o : DrawOutcome),
      k ∉ (settleA s k o).1.callbacks ∧ k ∉ (settleA s k o).1.draws) ∧
    (∀ (s : DrawState κ) (k : κ),
      (settleA s k DrawOutcome.timedOut).2 = DrawResult.rejectedTimeout) ∧
    (∀ (s : DrawState κ) (k : κ) (o : DrawOutcome),
      k ∉ (settleB s k o).1.draws) ∧
    (∀ (s : DrawState κ) (k : κ),
      k ∉ (settleB s k DrawOutcome.success).1.callbacks ∧
      k ∉ (settleB s k DrawOutcome.failure).1.callbacks) ∧
    (∀ (s : DrawState κ) (k : κ),
      (settleB s k DrawOutcome.timedOut).1.callbacks = s.callbacks ∧
      (settleB s k DrawOutcome.timedOut).2 = DrawResult.rejectedTimeout) := by
  refine ⟨?_, fun s k => rfl, ?_, ?_, fun s k => ⟨rfl, rfl⟩⟩
  · intro s k o
    cases o <;>
      simp [settleA, drawFinally, timeoutFireA, listenerSettle,
        List.mem_filter]
  · intro s k o
    cases o <;>
      simp [settleB, drawFinally, timeoutFireB, listenerSettle,
        List.mem_filter]
  · intro s k
    constructor <;>
      simp [settleB, drawFinally, listenerSettle, List.mem_filter]

/-- Witness for C2 as amended, at the concrete key 5 and a state with
that key registered. -/
theorem draw_cleanup_spec_witness :
    (5 ∉ (settleA (⟨[5], [5]⟩ : DrawState Nat) 5
        DrawOutcome.timedOut).1.callbacks ∧
      5 ∉ (settleA (⟨[5], [5]⟩ : DrawState Nat) 5
        DrawOutcome.timedOut).1.draws) ∧
    (settleB (⟨[5], [5]⟩ : DrawState Nat) 5 DrawOutcome.timedOut).1.callbacks
      = [5] :=
  ⟨(@draw_cleanup_spec Nat _).1 ⟨[5], [5]⟩ 5 DrawOutcome.timedOut,
   ((@draw_cleanup_spec Nat _).2.2.2.2 ⟨[5], [5]⟩ 5).1⟩

/-!  Cache clearing. -/

/-- The offscreen.js variant state: the icon cache map and the pending
draws map, at the level of keys and entries. -/
structure OffscreenCacheState (κ α : Type) where
  iconCache : List (κ × α)
  pendingDraws : List κ

/-- clearCache from the offscreen.js variant: both maps are cleared in
one synchronous step, with no suspension point between the two clear
calls, so no caller can observe one empty and the other not. -/
def clearCache (_ : OffscreenCacheState κ α) : OffscreenCacheState κ α :=
  { iconCache := [], pendingDraws := [] }

/-- The storage.onChanged handler of the offscreen.js variant: clear the
cache exactly when a visual setting changed. -/
def storageChangedB (s : OffscreenCacheState κ α) (visualChange : Bool) :
    OffscreenCacheState κ α :=
  if visualChange then clearCache s else s

/-- The background_script.js variant state: the OptimizedIconCache and
the separate module-level pendingDraws map. -/
structure BackgroundState (κ α : Type) where
  iconCache : OptimizedIconCache κ α
  pendingDraws : List κ

/-- The storage.onChanged handler of background_script.js: it calls
iconCache.clear(), which empties the cache and accessOrder maps only;
the module-level pendingDraws map is not touched. -/
def storageChangedA (s : BackgroundState κ α) : BackgroundState κ α :=
  { s with iconCache := s.iconCache.clear }

/-- Counterexample to C4: in the background_script.js variant, the
settings-change handler empties the icon cache but leaves the
pending-draw tracking untouched, so not every cache-clearing code path
empties both. -/
theorem clear_leaves_pendingDraws :
    (storageChangedA (⟨⟨50, [(5, 7)], [(5, 0)]⟩, [5]⟩
      : BackgroundState Nat Nat)).pendingDraws = [5] ∧
    (storageChangedA (⟨⟨50, [(5, 7)], [(5, 0)]⟩, [5]⟩
      : BackgroundState Nat Nat)).iconCache.cache = [] ∧
    ([5] : List Nat) ≠ [] := by
  decide

/-- C4 as amended: in the offscreen.js variant, clearCache — and with
it the settings-change handler on a visual change — leaves the icon
cache and the pending-draw tracking both empty in a single atomic step;
in the background_script.js variant, clearing (including from its
settings-change handler) empties the cache and accessOrder maps but
leaves pendingDraws exactly as it was. -/
theorem clearCache_spec {κ α : Type} :
    (∀ s : OffscreenCacheState κ α,
      (clearCache s).iconCache = [] ∧ (clearCache s).pendingDraws = []) ∧
    (∀ s : OffscreenCacheState κ α,
      (storageChangedB s true).iconCache = [] ∧
      (storageChangedB s true).pendingDraws = []) ∧
    (∀ s : BackgroundState κ α,
      (storageChangedA s).iconCache.cache = [] ∧
      (storageChangedA s).iconCache.accessOrder = [] ∧
      (storageChangedA s).pendingDraws = s.pendingDraws) :=
  ⟨fun _ => ⟨rfl, rfl⟩, fun _ => ⟨rfl, rfl⟩, fun _ => ⟨rfl, rfl, rfl⟩⟩

end ChromeClock
